import Mathlib

/-!
Verification of the rulebook RAG pipeline.

Shallow embedding of the core pipeline of the repository:
the tokenized chunker (`chunk_text` in process_rulebooks.py / rulebook_assistant.py),
the SQLite chunk store (database.py), the cosine-similarity ranker
(`cosine_similarity` / `search_chunks` in app.py and rulebook_assistant_simple.py),
and the prompt-building logic of `answer_question` (app.py).

Modelling conventions:
* Page text is represented by its token list (tiktoken `encode`/`decode` are external
  and bijective for our purposes), so a chunk's text is a `List ℕ` of token ids.
* Embedding vectors are `List ℚ`; float arithmetic is modelled by exact rational
  arithmetic.  The float value `dot/(‖a‖·‖b‖)` computed by `cosine_similarity` is
  irrational in general, so we store its image under the strictly monotone bijection
  `x ↦ x * |x|`, which equals `d * |d| / (normSq a * normSq b)` and is rational; all
  order comparisons (the only use of similarity values) are preserved exactly.
  NumPy's silent `0/0 → nan` on a zero-norm vector is modelled as `none`.
* The SQLite database is a record of row lists with explicit AUTOINCREMENT counters;
  `CURRENT_TIMESTAMP` is an explicit `now : ℕ` argument.
* Python's stable `list.sort(reverse=True, key=...)` is modelled by
  `List.insertionSort` with the relation "key of the left element is ≥ key of the
  right element", which is the unique stable descending sort.
-/

set_option maxRecDepth 10000

namespace RulesExplainer

/-! ### Configuration constants (process_rulebooks.py lines 19-22, app.py line 18) -/

def CHUNK_SIZE : ℕ := 500

def CHUNK_OVERLAP : ℕ := 50

def TOP_K_RESULTS : ℕ := 5

/-! ### The tokenized chunker (process_rulebooks.py `chunk_text`, lines 79-103) -/

/-- A chunk as produced by `chunk_text`: the dict
`{"text": ..., "page": ..., "chunk_id": ...}`, with the text kept in token form. -/
structure PChunk where
  text : List ℕ
  page : ℕ
  chunk_id : ℕ
deriving DecidableEq

/-- Python slice index normalization: a negative index counts from the end
(clamped at 0), a nonnegative index is clamped at the length. -/
def pyIndex (n : ℕ) (i : ℤ) : ℕ :=
  if i < 0 then ((n : ℤ) + i).toNat else min i.toNat n

/-- Python list slice `l[a:b]`. -/
def pySlice {α : Type} (l : List α) (a b : ℤ) : List α :=
  (l.take (pyIndex l.length b)).drop (pyIndex l.length a)

/-- The `while start < len(tokens)` loop of `chunk_text`.  Each iteration emits
`tokens[start:start+chunk_size]` as a chunk whose `chunk_id` is the number of chunks
emitted so far, then advances `start` by `chunk_size - overlap` (Python integer
subtraction, so the step can be zero or negative: the loop is not guaranteed to
terminate, which the explicit `fuel` argument makes visible — a run that exhausts
its fuel is one that has not terminated within `fuel` iterations). -/
def chunkLoop (chunk_size overlap : ℕ) (tokens : List ℕ) (page_num : ℕ) :
    ℕ → ℤ → ℕ → List PChunk
  | _, _, 0 => []
  | base_id, start, fuel + 1 =>
    if start < (tokens.length : ℤ) then
      { text := pySlice tokens start (start + (chunk_size : ℤ)),
        page := page_num, chunk_id := base_id } ::
        chunkLoop chunk_size overlap tokens page_num (base_id + 1)
          (start + ((chunk_size : ℤ) - (overlap : ℤ))) fuel
    else []

/-- The function chunk_text restricted to a single page: run the window loop from `start = 0`.
The fuel `tokens.length + 1` is sufficient whenever `overlap < chunk_size`
(proved below), i.e. whenever the source's loop terminates at all. -/
def chunkPage (chunk_size overlap : ℕ) (tokens : List ℕ) (page_num base_id : ℕ) :
    List PChunk :=
  chunkLoop chunk_size overlap tokens page_num base_id 0 (tokens.length + 1)

/-- The function chunk_text from process_rulebooks.py: chunk every page independently,
with `chunk_id = len(chunks)` continuing across pages.  A page is a pair
(1-based page number, token list of the extracted text). -/
def chunk_text (chunk_size overlap : ℕ) (pages : List (ℕ × List ℕ)) : List PChunk :=
  pages.foldl (fun acc pg => acc ++ chunkPage chunk_size overlap pg.2 pg.1 acc.length) []

/-- Modelled from the spec's words (claim C1): the chunk count the spec predicts for a
page of `L` tokens, chunk size `S`, overlap `O`: one chunk if `0 < L ≤ S`, otherwise
`ceil(max(L - O, 0) / (S - O))` (which is 0 for `L = 0`). -/
def specChunkCount (S O L : ℕ) : ℕ :=
  if L = 0 then 0
  else if L ≤ S then 1
  else ((L - O) + (S - O) - 1) / (S - O)

/-! ### Cosine similarity and the ranker (app.py lines 133-147) -/

/-- A chunk as loaded from the database by `get_game_chunks` and consumed by
`search_chunks` and `answer_question`. -/
structure Chunk where
  chunk_id : ℕ
  page : ℕ
  text : List ℕ
  embedding : List ℚ
  source_type : String
deriving DecidableEq

/-- Dot product of two vectors (np.dot). -/
def dot (v1 v2 : List ℚ) : ℚ := (List.zipWith (fun a b => a * b) v1 v2).sum

/-- The squared Euclidean norm; `np.linalg.norm v = Real.sqrt (normSq v)`,
so `‖v‖ = 0 ↔ normSq v = 0`. -/
def normSq (v : List ℚ) : ℚ := dot v v

/-- Function cosine_similarity from app.py lines 133-137:
`np.dot(vec1, vec2) / (np.linalg.norm(vec1) * np.linalg.norm(vec2))`, computed
unconditionally.  The denominator `‖v1‖·‖v2‖` is zero iff `normSq v1 * normSq v2 = 0`;
in that case the numerator is also zero and NumPy silently returns `nan`, modelled as
`none`.  Otherwise the float value is `d / √(normSq v1 * normSq v2)`; we return its
image under the strictly monotone bijection `x ↦ x * |x|`, namely
`d * |d| / (normSq v1 * normSq v2)`, which is rational and order-isomorphic to it. -/
def cosine_similarity (vec1 vec2 : List ℚ) : Option ℚ :=
  let d := dot vec1 vec2
  let den := normSq vec1 * normSq vec2
  if den = 0 then none else some (d * |d| / den)

/-- The comparison underlying Python's stable `sort(reverse=True, key=fst)`:
the left element may stay before the right one unless its key is strictly smaller.
A `nan` (`none`) key compares false under `<` in Python, so an element is never
moved past on account of a `nan`. -/
def simGe (a b : Option ℚ) : Bool :=
  match a, b with
  | some x, some y => decide (y ≤ x)
  | _, _ => true

/-- The sort relation on the `(similarity, chunk)` pairs built by `search_chunks`. -/
def pairGe (x y : Option ℚ × Chunk) : Prop := simGe x.1 y.1 = true

instance : DecidableRel pairGe := fun x y => inferInstanceAs (Decidable (_ = true))

/-- Function search_chunks from app.py lines 139-147: score every chunk against the query
embedding with `cosine_similarity`, sort the `(sim, chunk)` pairs descending by
similarity with Python's stable sort, and return the chunks of the first `top_k`
pairs. -/
def search_chunks (query_embedding : List ℚ) (chunks : List Chunk) (top_k : ℕ) :
    List Chunk :=
  let similarities := chunks.map (fun c => (cosine_similarity query_embedding c.embedding, c))
  let sorted := similarities.insertionSort pairGe
  (sorted.take top_k).map Prod.snd

/-- The similarity value of a chunk against a query, with the undefined (`nan`) case
mapped to 0; used only by the specification-side ranking below, which presupposes
well-defined similarities. -/
def simVal (q : List ℚ) (c : Chunk) : ℚ := (cosine_similarity q c.embedding).getD 0

/-- Descending-similarity preorder on chunks (c may precede d). -/
def rankLe (q : List ℚ) (c d : Chunk) : Prop := simVal q d ≤ simVal q c

instance (q : List ℚ) : DecidableRel (rankLe q) :=
  fun c d => inferInstanceAs (Decidable (_ ≤ _))

/-- The pullback of `pairGe` along the pair construction of `search_chunks`. -/
def chunkGe (q : List ℚ) (c d : Chunk) : Prop :=
  simGe (cosine_similarity q c.embedding) (cosine_similarity q d.embedding) = true

instance (q : List ℚ) : DecidableRel (chunkGe q) :=
  fun c d => inferInstanceAs (Decidable (_ = true))

/-- Strict linear order on index-annotated chunks: higher similarity first,
ties broken by smaller original index. -/
def rankLex (q : List ℚ) (x y : ℕ × Chunk) : Prop :=
  simVal q y.2 < simVal q x.2 ∨ (simVal q x.2 = simVal q y.2 ∧ x.1 ≤ y.1)

instance (q : List ℚ) : DecidableRel (rankLex q) :=
  fun x y => inferInstanceAs (Decidable (_ ∨ _))

/-- Annotate a list with consecutive indices starting at `i`. -/
def withIdx {α : Type} : ℕ → List α → List (ℕ × α)
  | _, [] => []
  | i, a :: l => (i, a) :: withIdx (i + 1) l

/-- Modelled from the spec: the ranking contract of the Similarity Ranker —
"return the top-K chunks ordered by descending similarity; ties broken by original
chunk order (stable sort)".  Chunks are annotated with their original positions and
sorted by the strict lexicographic order `rankLex` (similarity descending, then
original index ascending). -/
def rankSpec (q : List ℚ) (chunks : List Chunk) : List Chunk :=
  ((withIdx 0 chunks).insertionSort (rankLex q)).map Prod.snd

/-! ### The chunk store (database.py) -/

/-- A chunk dict as passed to `add_game` (`chunks_with_embeddings`):
keys `chunk_id`, `page`, `text`, `embedding`. -/
structure EChunk where
  chunk_id : ℕ
  page : ℕ
  text : List ℕ
  embedding : List ℚ
deriving DecidableEq

/-- A row of the `games` table. -/
structure GameRow where
  id : ℕ
  title : String
  filename : String
  total_pages : ℕ
  total_chunks : ℕ
  processed_date : ℕ
deriving DecidableEq

/-- A row of the `chunks` table. -/
structure ChunkRow where
  id : ℕ
  game_id : ℕ
  chunk_id : ℕ
  page_number : ℕ
  text : List ℕ
  embedding : List ℚ
  source_type : String
deriving DecidableEq

/-- A row of the `processed_files` table. -/
structure FileRow where
  id : ℕ
  filename : String
  game_id : ℕ
  source_type : String
deriving DecidableEq

/-- The SQLite database: the three tables plus their AUTOINCREMENT counters. -/
structure DBState where
  games : List GameRow
  chunks : List ChunkRow
  processed_files : List FileRow
  next_game_id : ℕ
  next_chunk_row_id : ℕ
  next_file_id : ℕ
deriving DecidableEq

/-- Function init_database: empty tables, AUTOINCREMENT counters at 1. -/
def init_database : DBState := ⟨[], [], [], 1, 1, 1⟩

/-- Function game_exists (database.py lines 63-70). -/
def game_exists (st : DBState) (title : String) : Bool :=
  (st.games.find? fun g => g.title == title).isSome

/-- Function file_already_processed (database.py lines 72-79). -/
def file_already_processed (st : DBState) (filename : String) : Bool :=
  (st.processed_files.find? fun f => f.filename == filename).isSome

/-- The unconditional tail of `add_game` (database.py lines 123-137): insert one
`chunks` row per incoming chunk (consecutive AUTOINCREMENT row ids), then
`INSERT OR IGNORE` the `processed_files` record: it is dropped when the
filename is already recorded (UNIQUE column) and inserted otherwise. -/
def add_game_tail (st : DBState) (game_id : ℕ) (filename : String)
    (cwe : List EChunk) (source_type : String) : DBState :=
  let newRows := (withIdx 0 cwe).map fun p =>
    ChunkRow.mk (st.next_chunk_row_id + p.1) game_id p.2.chunk_id p.2.page p.2.text
      p.2.embedding source_type
  { st with
    chunks := st.chunks ++ newRows,
    next_chunk_row_id := st.next_chunk_row_id + cwe.length,
    processed_files :=
      if st.processed_files.any (fun f => f.filename == filename) then
        st.processed_files
      else st.processed_files ++ [⟨st.next_file_id, filename, game_id, source_type⟩],
    next_file_id :=
      if st.processed_files.any (fun f => f.filename == filename) then st.next_file_id
      else st.next_file_id + 1 }

/-- Function add_game (database.py lines 81-146).  If a game with this title exists, its
totals are incremented by the batch's page and chunk counts and its
`processed_date` refreshed; otherwise a new game row is created.  In both cases the
chunk rows are then inserted and the file recorded (`INSERT OR IGNORE`).  Returns
the new state and the `game_id`. -/
def add_game (st : DBState) (now : ℕ) (title filename : String) (total_pages : ℕ)
    (chunks_with_embeddings : List EChunk) (source_type : String) : DBState × ℕ :=
  match st.games.find? (fun g => g.title == title) with
  | some existing =>
    let game_id := existing.id
    let games' := st.games.map fun g =>
      if g.id == game_id then
        { g with
          total_pages := g.total_pages + total_pages,
          total_chunks := g.total_chunks + chunks_with_embeddings.length,
          processed_date := now }
      else g
    (add_game_tail { st with games := games' } game_id filename chunks_with_embeddings
        source_type,
      game_id)
  | none =>
    let game_id := st.next_game_id
    let games' := st.games ++
      [⟨game_id, title, filename, total_pages, chunks_with_embeddings.length, now⟩]
    (add_game_tail { st with games := games', next_game_id := game_id + 1 } game_id
        filename chunks_with_embeddings source_type,
      game_id)

/-- The `ORDER BY chunk_id` relation of `get_game_chunks`. -/
def rowLe (a b : ChunkRow) : Prop := a.chunk_id ≤ b.chunk_id

instance : DecidableRel rowLe := fun a b => inferInstanceAs (Decidable (_ ≤ _))

instance : IsTotal ChunkRow rowLe := ⟨fun a b => Nat.le_total a.chunk_id b.chunk_id⟩

instance : IsTrans ChunkRow rowLe := ⟨fun _ _ _ h1 h2 => Nat.le_trans h1 h2⟩

/-- Reassemble the chunk dict returned by `get_game_chunks`
(`json.loads` after `json.dumps` is the identity on the embedding). -/
def rowToChunk (r : ChunkRow) : Chunk :=
  ⟨r.chunk_id, r.page_number, r.text, r.embedding, r.source_type⟩

/-- Function get_game_chunks (database.py lines 171-206): `None` when no game row has the
title, otherwise the game's chunk rows ordered by `chunk_id` (SQLite returns rows
with equal `chunk_id` in storage order, i.e. a stable sort). -/
def get_game_chunks (st : DBState) (game_title : String) : Option (List Chunk) :=
  match st.games.find? (fun g => g.title == game_title) with
  | none => none
  | some g =>
    some (((st.chunks.filter fun c => c.game_id == g.id).insertionSort rowLe).map
      rowToChunk)

/-- Function process_pdf (process_rulebooks.py lines 153-196), with the external parts
represented by their results: `pages` is what `extract_text_from_pdf` returned
(page number and token list per page) and `embeddings` what the embedding service
returned for the chunk texts, in order.  The derived game title and document type
are pure functions of the filename (`extract_game_title_from_filename`,
`get_document_type`) not needed by any claim, so they are taken as inputs.
Returns the new state and whether the file was processed (`False` = skipped). -/
def process_pdf (st : DBState) (now : ℕ) (filename title doc_type : String)
    (pages : List (ℕ × List ℕ)) (embeddings : List (List ℚ)) : DBState × Bool :=
  if file_already_processed st filename then (st, false)
  else
    let chunks := chunk_text CHUNK_SIZE CHUNK_OVERLAP pages
    let cwe := List.zipWith (fun (c : PChunk) e => EChunk.mk c.chunk_id c.page c.text e)
      chunks embeddings
    ((add_game st now title filename pages.length cwe doc_type).1, true)

/-! ### Prompt building (app.py `answer_question`, lines 149-234) -/

/-- The two instruction variants of `answer_question`. -/
inductive Instruction where
  | setupWalkthrough
  | directAnswer
deriving DecidableEq

/-- The keyword list of app.py line 189. -/
def setup_keywords : List String :=
  ["setup", "set up", "start", "beginning", "prepare", "how to play", "getting started"]

/-- Python's substring test `needle in hay` on character lists. -/
def strIn (needle : List Char) : List Char → Bool
  | [] => needle.isEmpty
  | c :: t => needle.isPrefixOf (c :: t) || strIn needle t

/-- Python's `s.lower()`, as a character list. -/
def pyLower (s : String) : List Char := s.toList.map Char.toLower

/-- Function is_setup_question of app.py line 190:
`any(keyword in question.lower() for keyword in setup_keywords)`. -/
def is_setup_question (question : String) : Bool :=
  setup_keywords.any fun kw => strIn kw.toList (pyLower question)

/-- The `ORDER BY` relation used for `sorted(...)` on page numbers. -/
def pageLe (a b : ℕ) : Prop := a ≤ b

instance : DecidableRel pageLe := fun a b => Nat.decLe a b

instance : IsTotal ℕ pageLe := ⟨Nat.le_total⟩

instance : IsTrans ℕ pageLe := ⟨fun _ _ _ h1 h2 => Nat.le_trans h1 h2⟩

/-- The pure core of `answer_question` (app.py lines 149-234), omitting the two
external service calls (the question embedding is taken as an input, and the final
completion call consumes the assembled prompt unchanged).  Returns `none` on the
"Sorry, I couldn't find the rulebook" path (unknown title, or a game with no
chunks), otherwise the selected instruction variant, the cited `source_pages`
(`sorted(set(...))` of the top chunks' pages) and the `sources_used` set
(distinct source types of the top chunks). -/
def answer_question (st : DBState) (question game_title : String)
    (question_embedding : List ℚ) : Option (Instruction × List ℕ × List String) :=
  match get_game_chunks st game_title with
  | none => none
  | some chunks =>
    if chunks.isEmpty then none
    else
      let top_chunks := search_chunks question_embedding chunks TOP_K_RESULTS
      let sources_used := (top_chunks.map fun c => c.source_type).dedup
      let instruction := if is_setup_question question then Instruction.setupWalkthrough
        else Instruction.directAnswer
      let source_pages := ((top_chunks.map fun c => c.page).dedup).insertionSort pageLe
      some (instruction, source_pages, sources_used)

/-! ### Concrete inputs used by the witnesses and counterexamples -/

/-- A chunk with embedding `[1]` (nonzero norm). -/
def exChunkA : Chunk := ⟨0, 2, [10], [1], "rulebook"⟩

/-- A chunk with embedding `[-1]` (nonzero norm). -/
def exChunkB : Chunk := ⟨1, 1, [11], [-1], "faq"⟩

/-- A chunk whose stored embedding has zero norm. -/
def zeroChunk : Chunk := ⟨0, 1, [12], [0], "rulebook"⟩

/-- A one-chunk ingestion batch. -/
def exEChunk : EChunk := ⟨0, 1, [1, 2], [1]⟩

/-- The store after ingesting `catan.pdf` into a fresh database. -/
def exState1 : DBState :=
  (add_game init_database 1 "Catan" "catan.pdf" 1 [exEChunk] "rulebook").1

/-- The store after calling `add_game` a second time with the same filename. -/
def exState2 : DBState :=
  (add_game exState1 2 "Catan" "catan.pdf" 1 [exEChunk] "rulebook").1

/-! ### Chunker lemmas -/

lemma pySlice_length_le {α : Type} (l : List α) (s : ℤ) (S : ℕ) (hs : 0 ≤ s) :
    (pySlice l s (s + (S : ℤ))).length ≤ S := by
  unfold pySlice pyIndex
  rw [if_neg (by omega), if_neg (by omega)]
  simp only [List.length_drop, List.length_take]
  omega

lemma chunkLoop_fuel_congr {S O : ℕ} (toks : List ℕ) (p : ℕ) (hOS : O < S) :
    ∀ (m : ℕ) (s : ℤ) (b f g : ℕ),
      ((toks.length : ℤ) - s).toNat ≤ m → m < f → m < g →
      chunkLoop S O toks p b s f = chunkLoop S O toks p b s g := by
  intro m
  induction m with
  | zero =>
    intro s b f g hm hf hg
    obtain ⟨f', rfl⟩ : ∃ f', f = f' + 1 := ⟨f - 1, by omega⟩
    obtain ⟨g', rfl⟩ : ∃ g', g = g' + 1 := ⟨g - 1, by omega⟩
    have hs : ¬ s < (toks.length : ℤ) := by omega
    simp [chunkLoop, hs]
  | succ m ih =>
    intro s b f g hm hf hg
    obtain ⟨f', rfl⟩ : ∃ f', f = f' + 1 := ⟨f - 1, by omega⟩
    obtain ⟨g', rfl⟩ : ∃ g', g = g' + 1 := ⟨g - 1, by omega⟩
    by_cases hs : s < (toks.length : ℤ)
    · simp only [chunkLoop, if_pos hs]
      have hcast : (O : ℤ) < (S : ℤ) := by exact_mod_cast hOS
      congr 1
      exact ih _ _ _ _ (by omega) (by omega) (by omega)
    · simp [chunkLoop, hs]

lemma ceilDiv_step (r step : ℕ) (hstep : 0 < step) (hr : 1 ≤ r) :
    (r + step - 1) / step = (r - step + step - 1) / step + 1 := by
  have h1 : r + step - 1 = (r - 1) + step := by omega
  rw [h1, Nat.add_div_right _ hstep]
  congr 1
  rcases le_or_lt step r with h | h
  · congr 1
    omega
  · rw [Nat.div_eq_of_lt (by omega), Nat.div_eq_of_lt (by omega)]

lemma chunkLoop_length {S O : ℕ} (toks : List ℕ) (p : ℕ) (hOS : O < S) :
    ∀ (m : ℕ) (s : ℤ) (b f : ℕ),
      ((toks.length : ℤ) - s).toNat ≤ m → m < f →
      (chunkLoop S O toks p b s f).length =
        (((toks.length : ℤ) - s).toNat + (S - O) - 1) / (S - O) := by
  intro m
  induction m with
  | zero =>
    intro s b f hm hf
    obtain ⟨f', rfl⟩ : ∃ f', f = f' + 1 := ⟨f - 1, by omega⟩
    have hs : ¬ s < (toks.length : ℤ) := by omega
    have h0 : ((toks.length : ℤ) - s).toNat = 0 := by omega
    rw [h0]
    simp only [chunkLoop, if_neg hs, List.length_nil]
    rw [Nat.div_eq_of_lt (by omega)]
  | succ m ih =>
    intro s b f hm hf
    obtain ⟨f', rfl⟩ : ∃ f', f = f' + 1 := ⟨f - 1, by omega⟩
    have hcast : (O : ℤ) < (S : ℤ) := by exact_mod_cast hOS
    by_cases hs : s < (toks.length : ℤ)
    · simp only [chunkLoop, if_pos hs, List.length_cons]
      rw [ih (s + ((S : ℤ) - (O : ℤ))) (b + 1) f' (by omega) (by omega)]
      have hrec : ((toks.length : ℤ) - (s + ((S : ℤ) - (O : ℤ)))).toNat =
          ((toks.length : ℤ) - s).toNat - (S - O) := by omega
      rw [hrec]
      exact (ceilDiv_step _ _ (by omega) (by omega)).symm
    · have h0 : ((toks.length : ℤ) - s).toNat = 0 := by omega
      rw [h0]
      simp only [chunkLoop, if_neg hs, List.length_nil]
      rw [Nat.div_eq_of_lt (by omega)]

lemma chunkLoop_text_le {S O : ℕ} (toks : List ℕ) (p : ℕ) (hOS : O < S) :
    ∀ (f : ℕ) (s : ℤ) (b : ℕ), 0 ≤ s →
      ∀ c ∈ chunkLoop S O toks p b s f, c.text.length ≤ S := by
  intro f
  induction f with
  | zero => intro s b _ c hc; simp [chunkLoop] at hc
  | succ f ih =>
    intro s b hs c hc
    have hcast : (O : ℤ) < (S : ℤ) := by exact_mod_cast hOS
    by_cases hlt : s < (toks.length : ℤ)
    · simp only [chunkLoop, if_pos hlt, List.mem_cons] at hc
      rcases hc with rfl | hc
      · exact pySlice_length_le toks s S hs
      · exact ih _ _ (by omega) c hc
    · simp [chunkLoop, hlt] at hc

/-- Claim C1, counterexample: on a page of 2 tokens with chunk size 2 and overlap 1,
the chunker emits 2 chunks (`ceil(L / (S - O))`), while the claimed formula — 1 chunk
whenever `0 < L ≤ S`, and also `ceil(max(L - O, 0) / (S - O)) = 1` — predicts 1. -/
theorem chunk_count_spec_mismatch :
    (chunkPage 2 1 [5, 6] 1 0).length = 2 ∧ specChunkCount 2 1 2 = 1 ∧
      (chunkPage 2 1 [5, 6] 1 0).length ≠ specChunkCount 2 1 2 := by
  refine ⟨by decide, by decide, by decide⟩

/-- Claim C1 (amended): for a page of `L` tokens and overlap strictly below chunk
size, the chunker emits exactly `ceil(L / (S - O))` chunks — `(L + (S-O) - 1) / (S-O)`
in natural division — each at most `S` tokens long; an empty page yields zero
chunks. -/
theorem chunkPage_count (S O : ℕ) (toks : List ℕ) (p b : ℕ) (hOS : O < S) :
    (chunkPage S O toks p b).length = (toks.length + (S - O) - 1) / (S - O) ∧
      (∀ c ∈ chunkPage S O toks p b, c.text.length ≤ S) ∧
      (toks = [] → chunkPage S O toks p b = []) := by
  refine ⟨?_, ?_, ?_⟩
  · have h := chunkLoop_length toks p hOS toks.length 0 b (toks.length + 1)
      (by omega) (by omega)
    have h0 : (((toks.length : ℤ) - 0)).toNat = toks.length := by omega
    rw [h0] at h
    exact h
  · exact fun c hc => chunkLoop_text_le toks p hOS _ 0 b (by omega) c hc
  · intro h
    subst h
    simp [chunkPage, chunkLoop]

/-- Claim C1 witness: chunk size 3, overlap 1, a page of 4 tokens. -/
theorem chunkPage_count_witness :
    1 < 3 ∧
      ((chunkPage 3 1 [1, 2, 3, 4] 9 0).length = (4 + (3 - 1) - 1) / (3 - 1) ∧
        (∀ c ∈ chunkPage 3 1 [1, 2, 3, 4] 9 0, c.text.length ≤ 3) ∧
        ([1, 2, 3, 4] = ([] : List ℕ) → chunkPage 3 1 [1, 2, 3, 4] 9 0 = [])) := by
  have h4 : List.length [1, 2, 3, 4] = 4 := by decide
  refine ⟨by decide, ?_⟩
  have := chunkPage_count 3 1 [1, 2, 3, 4] 9 0 (by decide)
  rwa [h4] at this

/-- Claim C3, counterexample: with overlap equal to chunk size (both 1) on a
one-token page, the window never advances: the loop is silently run and emits as
many identical one-token chunks as it is given fuel — it never terminates, and no
startup validation of `overlap < chunk_size` exists anywhere in the source. -/
theorem chunkLoop_nonadvancing :
    chunkLoop 1 1 [7] 1 0 0 2 = [⟨[7], 1, 0⟩, ⟨[7], 1, 1⟩] ∧
      (chunkLoop 1 1 [7] 1 0 0 5).length = 5 ∧
      (chunkLoop 1 1 [7] 1 0 0 6).length = 6 := by
  refine ⟨by decide, by decide, by decide⟩

/-- Claim C3 (amended): the source performs no startup validation; instead, whenever
`overlap < chunk_size` the window loop terminates on every page — its result is
independent of any sufficient fuel bound, i.e. equal to `chunkPage` — and the shipped
configuration `CHUNK_SIZE = 500`, `CHUNK_OVERLAP = 50` satisfies that
precondition. -/
theorem chunkLoop_terminates (S O : ℕ) (toks : List ℕ) (p b f : ℕ) (hOS : O < S)
    (hf : toks.length < f) :
    chunkLoop S O toks p b 0 f = chunkPage S O toks p b ∧
      CHUNK_OVERLAP < CHUNK_SIZE := by
  refine ⟨?_, by decide⟩
  exact chunkLoop_fuel_congr toks p hOS toks.length 0 b f (toks.length + 1)
    (by omega) (by omega) (by omega)

/-- Claim C3 witness: chunk size 3, overlap 1, a page of 4 tokens, fuel 10. -/
theorem chunkLoop_terminates_witness :
    1 < 3 ∧ List.length [1, 2, 3, 4] < 10 ∧
      (chunkLoop 3 1 [1, 2, 3, 4] 9 0 0 10 = chunkPage 3 1 [1, 2, 3, 4] 9 0 ∧
        CHUNK_OVERLAP < CHUNK_SIZE) :=
  ⟨by decide, by decide,
    chunkLoop_terminates 3 1 [1, 2, 3, 4] 9 0 10 (by decide) (by decide)⟩

/-! ### Chunk store lemmas -/

lemma withIdx_length {α : Type} : ∀ (i : ℕ) (l : List α), (withIdx i l).length = l.length
  | _, [] => rfl
  | i, _ :: l => by simp [withIdx, withIdx_length (i + 1) l]

lemma withIdx_map_snd {α : Type} : ∀ (i : ℕ) (l : List α), (withIdx i l).map Prod.snd = l
  | _, [] => rfl
  | i, a :: l => by simp [withIdx, withIdx_map_snd (i + 1) l]

lemma withIdx_le_fst {α : Type} :
    ∀ (i : ℕ) (l : List α) (pr : ℕ × α), pr ∈ withIdx i l → i ≤ pr.1
  | _, [], _, h => by simp [withIdx] at h
  | i, a :: l, pr, h => by
    rcases (List.mem_cons).1 h with rfl | h'
    · exact le_refl i
    · exact le_trans (Nat.le_succ i) (withIdx_le_fst (i + 1) l pr h')

lemma withIdx_map_eval {α β : Type} (h : α → β) :
    ∀ (i : ℕ) (l : List α), (withIdx i l).map (fun p => h p.2) = l.map h
  | _, [] => rfl
  | i, a :: l => by simp [withIdx, withIdx_map_eval h (i + 1) l]

lemma find?_map_of_title (l : List GameRow) (t : String) (F : GameRow → GameRow)
    (hF : ∀ g, (F g).title = g.title) :
    (l.map F).find? (fun g => g.title == t) = (l.find? (fun g => g.title == t)).map F := by
  have hfun : ((fun g : GameRow => g.title == t) ∘ F) = fun g : GameRow => g.title == t := by
    funext g
    simp [Function.comp, hF g]
  rw [List.find?_map, hfun]

lemma add_game_chunks_length (st : DBState) (now : ℕ) (t f : String) (p : ℕ)
    (cwe : List EChunk) (s : String) :
    ((add_game st now t f p cwe s).1).chunks.length = st.chunks.length + cwe.length := by
  unfold add_game
  rcases h : st.games.find? (fun g => g.title == t) with _ | g <;>
    simp [h, add_game_tail, List.length_append, List.length_map, withIdx_length]

/-- Claim C2, counterexample: `catan.pdf` is already recorded in `processed_files` of
`exState1`, yet a second direct `add_game` call with that filename is not rejected:
it inserts a duplicate chunk row (2 rows instead of 1) and re-increments the game's
`total_chunks` to 2. -/
theorem add_game_not_idempotent :
    file_already_processed exState1 "catan.pdf" = true ∧
      exState1.chunks.length = 1 ∧ exState2.chunks.length = 2 ∧
      exState1.games.map (fun g => g.total_chunks) = [1] ∧
      exState2.games.map (fun g => g.total_chunks) = [2] := by
  refine ⟨by decide, by decide, by decide, by decide, by decide⟩

/-- Claim C2 (amended): the filename-level rejection is enforced by the caller
`process_pdf`, which skips an already-recorded filename before any chunking or
insert and leaves the store untouched; `add_game` itself performs no such check and
unconditionally inserts the chunk batch (only the `processed_files` insert is
dropped by `INSERT OR IGNORE`). -/
theorem process_pdf_skips_processed (st : DBState) (now : ℕ) (fn title dt : String)
    (pages : List (ℕ × List ℕ)) (embeds : List (List ℚ))
    (h : file_already_processed st fn = true) :
    process_pdf st now fn title dt pages embeds = (st, false) ∧
      ∀ (p : ℕ) (cwe : List EChunk) (s : String),
        ((add_game st now title fn p cwe s).1).chunks.length =
          st.chunks.length + cwe.length := by
  constructor
  · simp [process_pdf, h]
  · intro p cwe s
    exact add_game_chunks_length st now title fn p cwe s

/-- Claim C2 witness: the store that has already processed `catan.pdf`. -/
theorem process_pdf_skips_processed_witness :
    file_already_processed exState1 "catan.pdf" = true ∧
      (process_pdf exState1 7 "catan.pdf" "Catan" "rulebook" [] [] = (exState1, false) ∧
        ∀ (p : ℕ) (cwe : List EChunk) (s : String),
          ((add_game exState1 7 "Catan" "catan.pdf" p cwe s).1).chunks.length =
            exState1.chunks.length + cwe.length) :=
  ⟨by decide,
    process_pdf_skips_processed exState1 7 "catan.pdf" "Catan" "rulebook" [] [] (by decide)⟩

/-- Claim C5: merging a new batch into an existing game creates no new game row,
increments exactly the found game's totals by the batch's page and chunk counts,
appends the new chunk rows after all previously stored ones, and copies each
incoming chunk's fields (index, page, text, embedding) unchanged, tagged with the
batch's source type.  The previously stored chunk rows are a prefix of the new
chunk table, hence unmodified. -/
theorem add_game_merge (st : DBState) (now : ℕ) (t f : String) (p : ℕ)
    (cwe : List EChunk) (s : String) (g : GameRow)
    (hg : st.games.find? (fun g0 => g0.title == t) = some g) :
    (add_game st now t f p cwe s).2 = g.id ∧
      ((add_game st now t f p cwe s).1).games.length = st.games.length ∧
      (((add_game st now t f p cwe s).1).games.find? (fun g0 => g0.title == t)).map
          (fun g0 => (g0.total_pages, g0.total_chunks)) =
        some (g.total_pages + p, g.total_chunks + cwe.length) ∧
      ((add_game st now t f p cwe s).1).chunks.take st.chunks.length = st.chunks ∧
      ((add_game st now t f p cwe s).1).chunks.length = st.chunks.length + cwe.length ∧
      (((add_game st now t f p cwe s).1).chunks.drop st.chunks.length).map
          (fun r => (r.chunk_id, r.page_number, r.text, r.embedding, r.source_type)) =
        cwe.map (fun c => (c.chunk_id, c.page, c.text, c.embedding, s)) := by
  have hF : ∀ g0 : GameRow,
      ((fun g1 : GameRow =>
        if g1.id == g.id then
          { g1 with
            total_pages := g1.total_pages + p,
            total_chunks := g1.total_chunks + cwe.length,
            processed_date := now }
        else g1) g0).title = g0.title := by
    intro g0
    by_cases h : g0.id == g.id <;> simp [h]
  refine ⟨?_, ?_, ?_, ?_, ?_, ?_⟩
  · simp [add_game, hg]
  · simp [add_game, hg, add_game_tail, List.length_map]
  · simp only [add_game, hg, add_game_tail]
    rw [find?_map_of_title _ _ _ hF, hg]
    simp
  · simp only [add_game, hg, add_game_tail]
    exact List.take_left _ _
  · exact add_game_chunks_length st now t f p cwe s
  · simp only [add_game, hg, add_game_tail]
    rw [List.drop_left, List.map_map]
    exact withIdx_map_eval
      (fun c : EChunk => (c.chunk_id, c.page, c.text, c.embedding, s)) 0 cwe

/-- Claim C5 witness: a second file for the existing title `Catan`. -/
theorem add_game_merge_witness :
    exState1.games.find? (fun g0 => g0.title == "Catan") =
        some ⟨1, "Catan", "catan.pdf", 1, 1, 1⟩ ∧
      ((add_game exState1 2 "Catan" "catan-faq.pdf" 3 [⟨0, 2, [3], [2]⟩] "faq").2 =
          (⟨1, "Catan", "catan.pdf", 1, 1, 1⟩ : GameRow).id ∧
        ((add_game exState1 2 "Catan" "catan-faq.pdf" 3 [⟨0, 2, [3], [2]⟩] "faq").1).games.length =
          exState1.games.length ∧
        (((add_game exState1 2 "Catan" "catan-faq.pdf" 3 [⟨0, 2, [3], [2]⟩] "faq").1).games.find?
            (fun g0 => g0.title == "Catan")).map (fun g0 => (g0.total_pages, g0.total_chunks)) =
          some ((⟨1, "Catan", "catan.pdf", 1, 1, 1⟩ : GameRow).total_pages + 3,
            (⟨1, "Catan", "catan.pdf", 1, 1, 1⟩ : GameRow).total_chunks +
              List.length [(⟨0, 2, [3], [2]⟩ : EChunk)]) ∧
        ((add_game exState1 2 "Catan" "catan-faq.pdf" 3 [⟨0, 2, [3], [2]⟩] "faq").1).chunks.take
            exState1.chunks.length = exState1.chunks ∧
        ((add_game exState1 2 "Catan" "catan-faq.pdf" 3 [⟨0, 2, [3], [2]⟩] "faq").1).chunks.length =
          exState1.chunks.length + List.length [(⟨0, 2, [3], [2]⟩ : EChunk)] ∧
        (((add_game exState1 2 "Catan" "catan-faq.pdf" 3 [⟨0, 2, [3], [2]⟩] "faq").1).chunks.drop
            exState1.chunks.length).map
            (fun r => (r.chunk_id, r.page_number, r.text, r.embedding, r.source_type)) =
          [(⟨0, 2, [3], [2]⟩ : EChunk)].map
            (fun c => (c.chunk_id, c.page, c.text, c.embedding, "faq"))) :=
  ⟨by decide,
    add_game_merge exState1 2 "Catan" "catan-faq.pdf" 3 [⟨0, 2, [3], [2]⟩] "faq"
      ⟨1, "Catan", "catan.pdf", 1, 1, 1⟩ (by decide)⟩

/-- Claim C10: a merge into an existing game leaves every game row's `id`, `title`
and `filename` columns exactly as they were — the `filename` column keeps recording
only the first ingested file — so the UPDATE touches only `total_pages`,
`total_chunks` and `processed_date`. -/
theorem add_game_merge_frame (st : DBState) (now : ℕ) (t f : String) (p : ℕ)
    (cwe : List EChunk) (s : String) (g : GameRow)
    (hg : st.games.find? (fun g0 => g0.title == t) = some g) :
    ((add_game st now t f p cwe s).1).games.map (fun r => (r.id, r.title, r.filename)) =
      st.games.map (fun r => (r.id, r.title, r.filename)) := by
  simp only [add_game, hg, add_game_tail]
  rw [List.map_map]
  congr 1
  funext r
  by_cases h : r.id == g.id <;> simp [Function.comp, h]

/-- Claim C10 witness: the same second-file merge as for claim C5. -/
theorem add_game_merge_frame_witness :
    exState1.games.find? (fun g0 => g0.title == "Catan") =
        some ⟨1, "Catan", "catan.pdf", 1, 1, 1⟩ ∧
      ((add_game exState1 2 "Catan" "catan-faq.pdf" 3 [⟨0, 2, [3], [2]⟩] "faq").1).games.map
          (fun r => (r.id, r.title, r.filename)) =
        exState1.games.map (fun r => (r.id, r.title, r.filename)) :=
  ⟨by decide,
    add_game_merge_frame exState1 2 "Catan" "catan-faq.pdf" 3 [⟨0, 2, [3], [2]⟩] "faq"
      ⟨1, "Catan", "catan.pdf", 1, 1, 1⟩ (by decide)⟩

/-- Claim C7: `get_game_chunks` returns `none` — never an error — when no game row
carries the requested title; for a known title it returns the game's chunk rows
ordered by chunk index (a permutation of exactly that game's rows, sorted by
`chunk_id`). -/
theorem get_game_chunks_spec (st : DBState) (t : String) :
    (st.games.find? (fun g => g.title == t) = none → get_game_chunks st t = none) ∧
      (∀ g : GameRow, st.games.find? (fun g0 => g0.title == t) = some g →
        ∃ l, get_game_chunks st t = some l ∧
          l.Pairwise (fun a b => a.chunk_id ≤ b.chunk_id) ∧
          l.Perm ((st.chunks.filter fun c => c.game_id == g.id).map rowToChunk)) := by
  constructor
  · intro h
    simp [get_game_chunks, h]
  · intro g hg
    refine ⟨((st.chunks.filter fun c => c.game_id == g.id).insertionSort rowLe).map
      rowToChunk, ?_, ?_, ?_⟩
    · simp [get_game_chunks, hg]
    · have hs : List.Sorted rowLe
          ((st.chunks.filter fun c => c.game_id == g.id).insertionSort rowLe) :=
        List.sorted_insertionSort rowLe _
      exact List.Pairwise.map rowToChunk (fun a b hab => hab) hs
    · exact (List.perm_insertionSort rowLe _).map rowToChunk

/-- Claim C7 witness: an unknown and a known title against the one-game store. -/
theorem get_game_chunks_spec_witness :
    (exState1.games.find? (fun g => g.title == "Wingspan") = none ∧
        get_game_chunks exState1 "Wingspan" = none) ∧
      (exState1.games.find? (fun g0 => g0.title == "Catan") =
          some ⟨1, "Catan", "catan.pdf", 1, 1, 1⟩ ∧
        ∃ l, get_game_chunks exState1 "Catan" = some l ∧
          l.Pairwise (fun a b => a.chunk_id ≤ b.chunk_id) ∧
          l.Perm ((exState1.chunks.filter fun c =>
            c.game_id == (⟨1, "Catan", "catan.pdf", 1, 1, 1⟩ : GameRow).id).map rowToChunk)) :=
  ⟨⟨by decide, (get_game_chunks_spec exState1 "Wingspan").1 (by decide)⟩,
    ⟨by decide, (get_game_chunks_spec exState1 "Catan").2
      ⟨1, "Catan", "catan.pdf", 1, 1, 1⟩ (by decide)⟩⟩

/-! ### Similarity ranker lemmas -/

lemma cosine_similarity_eq_some {q v : List ℚ} (hq : normSq q ≠ 0) (hv : normSq v ≠ 0) :
    cosine_similarity q v = some ((cosine_similarity q v).getD 0) := by
  simp only [cosine_similarity]
  rw [if_neg (mul_ne_zero hq hv)]
  rfl

lemma search_sort_eq_chunkGe (q : List ℚ) (chunks : List Chunk) :
    (chunks.map fun c => (cosine_similarity q c.embedding, c)).insertionSort pairGe =
      (chunks.insertionSort (chunkGe q)).map
        fun c => (cosine_similarity q c.embedding, c) :=
  (List.map_insertionSort (chunkGe q) pairGe
    (fun c => (cosine_similarity q c.embedding, c)) chunks
    (fun _ _ _ _ => Iff.rfl)).symm

lemma chunkGe_eq_rankLe (q : List ℚ) (chunks : List Chunk) (hq : normSq q ≠ 0)
    (hc : ∀ c ∈ chunks, normSq c.embedding ≠ 0) :
    chunks.insertionSort (chunkGe q) = chunks.insertionSort (rankLe q) := by
  have hl : ∀ a ∈ chunks, ∀ b ∈ chunks, chunkGe q a b ↔ rankLe q (id a) (id b) := by
    intro a ha b hb
    obtain ⟨x, hx⟩ : ∃ x, cosine_similarity q a.embedding = some x :=
      ⟨_, cosine_similarity_eq_some hq (hc a ha)⟩
    obtain ⟨y, hy⟩ : ∃ y, cosine_similarity q b.embedding = some y :=
      ⟨_, cosine_similarity_eq_some hq (hc b hb)⟩
    unfold chunkGe rankLe simVal
    simp [simGe, hx, hy]
  have h := List.map_insertionSort (chunkGe q) (rankLe q) id chunks hl
  simpa using h

lemma orderedInsert_withIdx (q : List ℚ) (c : Chunk) (i : ℕ) :
    ∀ L : List (ℕ × Chunk), (∀ pr ∈ L, i < pr.1) →
      ((L.orderedInsert (rankLex q) (i, c)).map Prod.snd) =
        (L.map Prod.snd).orderedInsert (rankLe q) c := by
  intro L
  induction L with
  | nil => intro _; rfl
  | cons hd tl ih =>
    intro h
    have hi : i < hd.1 := h hd (List.mem_cons_self hd tl)
    have hiff : rankLex q (i, c) hd ↔ rankLe q c hd.2 := by
      unfold rankLex rankLe
      constructor
      · rintro (h1 | ⟨h1, -⟩)
        · exact le_of_lt h1
        · exact le_of_eq h1.symm
      · intro h1
        rcases lt_or_eq_of_le h1 with h2 | h2
        · exact Or.inl h2
        · exact Or.inr ⟨h2.symm, le_of_lt hi⟩
    by_cases hr : rankLex q (i, c) hd
    · simp [List.orderedInsert, hr, hiff.mp hr]
    · have hr' : ¬ rankLe q c hd.2 := fun hh => hr (hiff.mpr hh)
      simp only [List.orderedInsert, if_neg hr, if_neg hr', List.map_cons]
      rw [ih (fun pr hpr => h pr (List.mem_cons_of_mem hd hpr))]

lemma insertionSort_withIdx (q : List ℚ) :
    ∀ (l : List Chunk) (i : ℕ),
      ((withIdx i l).insertionSort (rankLex q)).map Prod.snd = l.insertionSort (rankLe q)
  | [], _ => rfl
  | c :: t, i => by
    have hmem : ∀ pr ∈ (withIdx (i + 1) t).insertionSort (rankLex q), i < pr.1 := by
      intro pr hpr
      have := withIdx_le_fst (i + 1) t pr ((List.mem_insertionSort (rankLex q)).1 hpr)
      omega
    show (((i, c) :: withIdx (i + 1) t).insertionSort (rankLex q)).map Prod.snd =
      (c :: t).insertionSort (rankLe q)
    simp only [List.insertionSort]
    rw [orderedInsert_withIdx q c i _ hmem, insertionSort_withIdx q t (i + 1)]

/-- Claim C4, counterexample: for the zero-norm vector `[0]` the code evaluates the
division with a zero denominator and produces the undefined similarity `nan`
(modelled `none`), not the similarity 0; and the zero-norm chunk is not rejected —
`search_chunks` still returns it. -/
theorem cosine_similarity_zero_norm :
    cosine_similarity [1] [0] = none ∧ cosine_similarity [1] [0] ≠ some 0 ∧
      search_chunks [1] [zeroChunk] 5 = [zeroChunk] := by
  have h : cosine_similarity [1] [0] = none := by
    norm_num [cosine_similarity, normSq, dot]
  refine ⟨h, ?_, by decide⟩
  rw [h]
  simp

/-- Claim C4 (amended): `cosine_similarity` computes `dot/(‖a‖·‖b‖)` with no guard:
the result is the undefined `nan` (modelled `none`) exactly when one of the vectors
has zero norm, and a well-defined rational otherwise; a zero-norm chunk is neither
scored 0 nor rejected. -/
theorem cosine_similarity_none_iff (v1 v2 : List ℚ) :
    cosine_similarity v1 v2 = none ↔ (normSq v1 = 0 ∨ normSq v2 = 0) := by
  simp only [cosine_similarity]
  by_cases h : normSq v1 * normSq v2 = 0
  · rw [if_pos h]
    simpa using mul_eq_zero.mp h
  · rw [if_neg h]
    rw [mul_eq_zero] at h
    simpa using h

/-- Claim C6: under the data-model invariant that stored embeddings (and the query
embedding) have nonzero norm, `search_chunks` returns exactly the first `k` chunks
of the specification ranking `rankSpec` — descending cosine similarity with ties
broken by original chunk order — and the fixed default `TOP_K_RESULTS` is 5. -/
theorem search_chunks_topk (q : List ℚ) (chunks : List Chunk) (k : ℕ)
    (hq : normSq q ≠ 0) (hc : ∀ c ∈ chunks, normSq c.embedding ≠ 0) :
    search_chunks q chunks k = (rankSpec q chunks).take k ∧ TOP_K_RESULTS = 5 := by
  refine ⟨?_, rfl⟩
  have hid : (Prod.snd ∘ fun c : Chunk => (cosine_similarity q c.embedding, c)) = id := rfl
  simp only [search_chunks, rankSpec]
  rw [search_sort_eq_chunkGe q chunks, ← List.map_take, List.map_map, hid, List.map_id,
    chunkGe_eq_rankLe q chunks hq hc, ← insertionSort_withIdx q chunks 0,
    ← List.map_take]

/-- Claim C6 witness: query `[1]` against two unit-norm chunks. -/
theorem search_chunks_topk_witness :
    normSq [(1 : ℚ)] ≠ 0 ∧ (∀ c ∈ [exChunkA, exChunkB], normSq c.embedding ≠ 0) ∧
      (search_chunks [1] [exChunkA, exChunkB] 2 = (rankSpec [1] [exChunkA, exChunkB]).take 2 ∧
        TOP_K_RESULTS = 5) := by
  have h1 : normSq [(1 : ℚ)] ≠ 0 := by norm_num [normSq, dot]
  have h2 : ∀ c ∈ [exChunkA, exChunkB], normSq c.embedding ≠ 0 := by
    intro c hcm
    rcases List.mem_cons.1 hcm with rfl | hcm
    · norm_num [exChunkA, normSq, dot]
    rcases List.mem_cons.1 hcm with rfl | hcm
    · norm_num [exChunkB, normSq, dot]
    · simp at hcm
  exact ⟨h1, h2, search_chunks_topk [1] [exChunkA, exChunkB] 2 h1 h2⟩

/-- Claim C9: `search_chunks` always returns `min k n` chunks for an `n`-chunk game
(no error on short or empty chunk lists), and when the list has at most `k` chunks
it returns all of them (a permutation of the input, in ranked order). -/
theorem search_chunks_short (q : List ℚ) (chunks : List Chunk) (k : ℕ) :
    (search_chunks q chunks k).length = min k chunks.length ∧
      (chunks.length ≤ k → (search_chunks q chunks k).Perm chunks) := by
  have hid : (Prod.snd ∘ fun c : Chunk => (cosine_similarity q c.embedding, c)) = id := rfl
  have hperm : ((chunks.map fun c => (cosine_similarity q c.embedding, c)).insertionSort
      pairGe).Perm (chunks.map fun c => (cosine_similarity q c.embedding, c)) :=
    List.perm_insertionSort pairGe _
  constructor
  · simp only [search_chunks, List.length_map, List.length_take]
    rw [hperm.length_eq, List.length_map]
  · intro hk
    simp only [search_chunks]
    rw [List.take_of_length_le (by rw [hperm.length_eq, List.length_map]; exact hk)]
    have h := hperm.map Prod.snd
    rw [List.map_map, hid, List.map_id] at h
    exact h

/-- Claim C9 witness: two chunks against the default `k = 5`. -/
theorem search_chunks_short_witness :
    List.length [exChunkA, exChunkB] ≤ 5 ∧
      ((search_chunks [1] [exChunkA, exChunkB] 5).length =
          min 5 (List.length [exChunkA, exChunkB]) ∧
        (search_chunks [1] [exChunkA, exChunkB] 5).Perm [exChunkA, exChunkB]) :=
  ⟨by decide, (search_chunks_short [1] [exChunkA, exChunkB] 5).1,
    (search_chunks_short [1] [exChunkA, exChunkB] 5).2 (by decide)⟩

/-- Claim C8: whenever `answer_question` produces an answer payload, the exhaustive
numbered walkthrough instruction is selected iff the question contains, as a
case-insensitive substring, one of exactly the seven setup keywords — otherwise the
direct-answer instruction — and the returned `source_pages` are strictly
increasing (sorted ascending, no duplicates) and are exactly the page numbers of the
returned top chunks. -/
theorem answer_question_spec (st : DBState) (question game_title : String)
    (emb : List ℚ) (inst : Instruction) (pages : List ℕ) (srcs : List String)
    (h : answer_question st question game_title emb = some (inst, pages, srcs)) :
    (inst = Instruction.setupWalkthrough ↔
      ∃ kw ∈ ["setup", "set up", "start", "beginning", "prepare", "how to play",
        "getting started"], strIn kw.toList (pyLower question) = true) ∧
      pages.Pairwise (fun a b => a < b) ∧
      (∀ pg, pg ∈ pages ↔
        ∃ c ∈ search_chunks emb ((get_game_chunks st game_title).getD [])
          TOP_K_RESULTS, c.page = pg) := by
  rcases hgc : get_game_chunks st game_title with _ | chunks
  · rw [answer_question, hgc] at h
    dsimp only at h
    exact Option.noConfusion h
  · rw [answer_question, hgc] at h
    dsimp only at h
    by_cases hne : chunks.isEmpty
    · rw [if_pos hne] at h
      exact Option.noConfusion h
    · rw [if_neg hne] at h
      have hinj := Option.some.inj h
      obtain ⟨hinst, hpages, hsrcs⟩ : _ ∧ _ ∧ _ := by
        rw [Prod.mk.injEq, Prod.mk.injEq] at hinj
        exact ⟨hinj.1, hinj.2.1, hinj.2.2⟩
      refine ⟨?_, ?_, ?_⟩
      · rw [← hinst]
        by_cases hqq : is_setup_question question
        · simp only [if_pos hqq, true_iff]
          have := List.any_eq_true.1 hqq
          simpa [setup_keywords] using this
        · simp only [if_neg hqq]
          constructor
          · intro hcontr
            exact Instruction.noConfusion hcontr
          · intro hex
            exact absurd (List.any_eq_true.2 (by simpa [setup_keywords] using hex)) hqq
      · rw [← hpages]
        have hsort : List.Sorted pageLe
            ((((search_chunks emb chunks TOP_K_RESULTS).map fun c => c.page).dedup).insertionSort
              pageLe) :=
          List.sorted_insertionSort pageLe _
        have hnd : ((((search_chunks emb chunks TOP_K_RESULTS).map fun c => c.page).dedup).insertionSort
            pageLe).Nodup :=
          (List.perm_insertionSort pageLe _).nodup_iff.2 (List.nodup_dedup _)
        exact (hsort.and hnd).imp fun hab => lt_of_le_of_ne hab.1 hab.2
      · intro pg
        rw [← hpages]
        simp [List.mem_insertionSort, List.mem_dedup, List.mem_map, hgc]

/-- Claim C8 witness: the question is literally `"setup"`, against the one-game
store; the answer cites page 1 from the single stored rulebook chunk. -/
theorem answer_question_spec_witness :
    answer_question exState1 "setup" "Catan" [1] =
        some (Instruction.setupWalkthrough, [1], ["rulebook"]) ∧
      ((Instruction.setupWalkthrough = Instruction.setupWalkthrough ↔
        ∃ kw ∈ ["setup", "set up", "start", "beginning", "prepare", "how to play",
          "getting started"], strIn kw.toList (pyLower "setup") = true) ∧
        ([1] : List ℕ).Pairwise (fun a b => a < b) ∧
        (∀ pg, pg ∈ ([1] : List ℕ) ↔
          ∃ c ∈ search_chunks [1] ((get_game_chunks exState1 "Catan").getD [])
            TOP_K_RESULTS, c.page = pg)) :=
  ⟨by decide, answer_question_spec exState1 "setup" "Catan" [1]
    Instruction.setupWalkthrough [1] ["rulebook"] (by decide)⟩

end RulesExplainer
